import Mathlib

/-!
Verification of the finance-tracker backend's authentication core and
budget aggregation against its specification.

The Rust sources are embedded shallowly:

* Rust `String` / `&str` values are modelled as `Str := List Char`
  (`s2c` converts a Lean string literal to this form).
* The external `jsonwebtoken` crate (HMAC-signed JWTs) and the external
  `argon2` crate (password hashing) are not part of the repository; they
  are modelled from the spec's contracts for them (see `encodeJwt`,
  `jwtDecode`, `argonHash`, `phcParse`) as injective codecs whose
  verification checks are exactly the ones the spec names (signature
  match, expiry against the current time, digest recomputation).
* Database tables are lists of rows; the SQL statements in the handlers
  are embedded as the corresponding filter/append/update/sort/sum
  operations.  The `budgets` table's unique key `(user_id, month,
  category)` (evidenced by the `ON CONFLICT` target in the source) makes
  each `GROUP BY b.category, b.amount` group a single budget row, so the
  aggregation query is embedded row-wise.
* `handlers.rs` handlers live in namespace `Handlers`; the `main.rs`
  variants (which additionally take a target user id from the request
  path or body) live in namespace `MainV`.
-/

/-! ### Strings as character lists -/

/-- Model of Rust strings: a list of characters. -/
abbrev Str := List Char

/-- Convert a Lean string literal into the `Str` model. -/
def s2c (s : String) : Str := s.data

/-- Model of Rust `str::strip_prefix`: remove `p` from the front of `l`
if it is a prefix, else `none`. -/
def stripPre : Str → Str → Option Str
  | [], l => some l
  | _ :: _, [] => none
  | a :: as, b :: bs => if a = b then stripPre as bs else none

/-- Lexicographic less-or-equal on character lists (by code point),
used to embed SQL `ORDER BY ... ASC` on text columns. -/
def strLeB : Str → Str → Bool
  | [], _ => true
  | _ :: _, [] => false
  | a :: as, b :: bs =>
    if a.toNat < b.toNat then true
    else if b.toNat < a.toNat then false
    else strLeB as bs

/-! ### Decimal digits (used by the modelled token / hash codecs) -/

/-- The character for a single decimal digit. -/
def digitChar : Nat → Char
  | 0 => '0'
  | 1 => '1'
  | 2 => '2'
  | 3 => '3'
  | 4 => '4'
  | 5 => '5'
  | 6 => '6'
  | 7 => '7'
  | 8 => '8'
  | 9 => '9'
  | _ => '*'

/-- The value of a decimal digit character. -/
def charDigit (c : Char) : Nat := c.toNat - 48

/-- Decimal digits, least significant first, with explicit recursion
fuel (any fuel at least the number suffices, see `toDigitsRevF_congr`). -/
def toDigitsRevF : Nat → Nat → List Nat
  | 0, n => [n % 10]
  | f + 1, n => if n < 10 then [n] else n % 10 :: toDigitsRevF f (n / 10)

/-- Decimal digits of `n`, least significant first. -/
def toDigitsRev (n : Nat) : List Nat := toDigitsRevF n n

/-- Value of a least-significant-first digit list. -/
def valLE : List Nat → Nat
  | [] => 0
  | d :: ds => d + 10 * valLE ds

/-- Decimal representation of `n` as characters (most significant first). -/
def natStr (n : Nat) : Str := (toDigitsRev n).reverse.map digitChar

/-- Value of a most-significant-first digit list. -/
def digitsVal (l : List Nat) : Nat := l.foldl (fun a d => a * 10 + d) 0

/-- Parse a digit string (most significant first) into a number. -/
def strNat (s : Str) : Nat := digitsVal (s.map charDigit)

/-! ### Dates

`chrono::NaiveDate` is embedded as a year/month/day record; the handlers
only compare dates and build first-of-month values, so no calendar
arithmetic beyond the month rollover in `nextMonthStart` is needed. -/

/-- Model of `chrono::NaiveDate`. -/
structure Date where
  year : Int
  month : Nat
  day : Nat
deriving DecidableEq, Repr

/-- Strict order on dates (lexicographic year, month, day); embeds SQL
`<` on `date` columns. -/
def dateLtB (a b : Date) : Bool :=
  decide (a.year < b.year) ||
    (decide (a.year = b.year) &&
      (decide (a.month < b.month) ||
        (decide (a.month = b.month) && decide (a.day < b.day))))

/-- Non-strict order on dates; embeds SQL `>=` (as `dateLeB ws d`). -/
def dateLeB (a b : Date) : Bool := dateLtB a b || decide (a = b)

/-- Embeds the next-month computation of `get_budget_progress`
(`handlers.rs` lines 271-276): December rolls over to January of the
next year, any other month increments. -/
def nextMonthStart (ms : Date) : Date :=
  if ms.month = 12 then ⟨ms.year + 1, 1, 1⟩ else ⟨ms.year, ms.month + 1, 1⟩

/-! ### Identities -/

/-- Model of `uuid::Uuid`: a stable identifier.  The 128-bit value is
modelled as a `Nat`; its canonical string form is produced by
`uuidStr` and parsed back by `uuidParse`. -/
structure Uuid where
  val : Nat
deriving DecidableEq, Repr

/-- Canonical string form of an identity (model of `Uuid::to_string`). -/
def uuidStr (u : Uuid) : Str := s2c "uuid-" ++ natStr u.val

/-- Model of `Uuid::parse_str`: accepts exactly the canonical form. -/
def uuidParse (s : Str) : Option Uuid :=
  match stripPre (s2c "uuid-") s with
  | none => none
  | some r =>
    if r.isEmpty then none
    else if r.all Char.isDigit then some ⟨strNat r⟩ else none

/-! ### Handler results

Rust handlers return `Result<T, (StatusCode, String)>` and may also
`panic!`; all three outcomes are represented. -/

/-- Outcome of a handler: success, an error response `(status, message)`,
or a process-aborting panic. -/
inductive HRes (α : Type) where
  | ok (val : α)
  | err (status : Nat) (msg : Str)
  | panicked (msg : Str)
deriving DecidableEq

/-! ### Token service (JWT model)

The `jsonwebtoken` crate is external to the repository.  Modelled from
the spec: `issue` builds claims `{sub, exp = now + ttl}` and signs them
with the shared secret; `verify` checks the signature first, then
checks `exp > current time` (reject as expired otherwise), then the
caller parses `sub`.  The encoded token is modelled as the injective
string `"jwt." ++ exp ++ "." ++ secret ++ "." ++ sub`, where embedding
the secret plays the role of the HMAC signature: decoding with a
different secret fails the signature check. -/

/-- JWT claims (`models.rs` `Claims`): subject string and expiry in unix
seconds. -/
structure JwtClaims where
  sub : Str
  exp : Nat
deriving DecidableEq, Repr

/-- Modelled from the spec: the external `jsonwebtoken` encode with
HMAC-SHA256 under `secret`. -/
def encodeJwt (secret : Str) (c : JwtClaims) : Str :=
  s2c "jwt." ++ (natStr c.exp ++ ('.' :: (secret ++ ('.' :: c.sub))))

/-- Modelled from the spec: the external `jsonwebtoken` decode with
`validate_exp = true` (as configured in `verify_jwt`): reject tokens
that do not decode, reject on signature mismatch, then reject expired
tokens (`exp` not greater than the current time `now`). -/
def jwtDecode (secret token : Str) (now : Nat) : Except Str JwtClaims :=
  match stripPre (s2c "jwt.") token with
  | none => .error (s2c "InvalidToken")
  | some r1 =>
    let ds := r1.takeWhile Char.isDigit
    let r2 := r1.dropWhile Char.isDigit
    if ds.isEmpty then .error (s2c "InvalidToken")
    else
      match stripPre ('.' :: secret ++ ['.']) r2 with
      | none => .error (s2c "InvalidSignature")
      | some sub =>
        if strNat ds ≤ now then .error (s2c "ExpiredSignature")
        else .ok ⟨sub, strNat ds⟩

/-- Embeds `verify_jwt` (`auth.rs` lines 7-22): decode and validate the
token, then parse the subject claim as a `Uuid`; any failure is
reported as an error string. -/
def verifyJwt (token secret : Str) (now : Nat) : Except Str (Uuid × Nat) :=
  match jwtDecode secret token now with
  | .error e => .error e
  | .ok c =>
    match uuidParse c.sub with
    | none => .error (s2c "invalid character: expected an optional prefix of `urn:uuid:` followed by [0-9a-fA-F-]")
    | some u => .ok (u, c.exp)

/-- `JWT_EXPIRATION_HOURS` (`models.rs` line 109). -/
def JWT_EXPIRATION_HOURS : Nat := 24

/-- Embeds the token-issuance part of `user_login` (`handlers.rs` lines
68-88): claims are `{sub = user id as string, exp = now + 24*3600}`,
encoded under the shared secret. -/
def issueToken (secret : Str) (u : Uuid) (now : Nat) : Str :=
  encodeJwt secret ⟨uuidStr u, now + JWT_EXPIRATION_HOURS * 3600⟩

/-! ### Identity gate -/

/-- Modelled from the spec: byte validity check of the external `http`
crate's `HeaderValue::to_str` (visible ASCII or tab). -/
def validHeaderByte (b : Nat) : Bool := (32 ≤ b && b < 127) || b == 9

/-- Modelled from the spec: `HeaderValue::to_str().ok()` — a header
value reads as a string exactly when every byte is visible ASCII. -/
def headerStr (bs : List Nat) : Option Str :=
  if bs.all validHeaderByte then some (bs.map Char.ofNat) else none

/-- Embeds `AuthenticatedUser::from_request_parts` (`auth.rs` lines
32-61): absent-or-unreadable header, then `Bearer ` prefix stripping,
then `verify_jwt`; each failure is a 401 with the source's message. -/
def authenticate (header : Option (List Nat)) (secret : Str) (now : Nat) : HRes Uuid :=
  match header.bind headerStr with
  | none => .err 401 (s2c "Missing Authorization header")
  | some h =>
    match stripPre (s2c "Bearer ") h with
    | none => .err 401 (s2c "Invalid Authorization format, expected: Bearer <token>")
    | some token =>
      match verifyJwt token secret now with
      | .error _ => .err 401 (s2c "Invalid or expired token")
      | .ok (u, _) => .ok u

/-! ### Credential vault (argon2 model)

The `argon2` crate is external to the repository.  Modelled from the
spec: `hash` draws a fresh random salt (here: a salt parameter),
applies a memory-hard digest and returns one self-describing encoded
string; `verify` parses the encoded hash and recomputes the digest with
the embedded parameters.  The digest is modelled as an ideal injective
function of the password (the model only needs injectivity). -/

/-- PHC-string prefix of the modelled encoded hash. -/
def phcPre : Str := s2c "$argon2id$"

/-- Modelled from the spec: the memory-hard digest; ideal and injective. -/
def argonDigest (_salt : Nat) (pw : Str) : Str := pw

/-- Modelled from the spec: `Argon2::hash_password(...).to_string()` as
used in `register_user` (`handlers.rs` lines 21-28) — one encoded
string embedding the salt and the digest. -/
def argonHash (salt : Nat) (pw : Str) : Str :=
  phcPre ++ (natStr salt ++ ('$' :: argonDigest salt pw))

/-- Modelled from the spec: `argon2::PasswordHash::new`, parsing an
encoded hash string into its salt and digest; fails on anything not in
the encoded format. -/
def phcParse (s : Str) : Option (Nat × Str) :=
  match stripPre phcPre s with
  | none => none
  | some r =>
    let ds := r.takeWhile Char.isDigit
    if ds.isEmpty then none
    else
      match r.dropWhile Char.isDigit with
      | '$' :: digest => some (strNat ds, digest)
      | _ => none

/-- Embeds the credential-verification steps of `user_login`
(`handlers.rs` lines 59-65): `PasswordHash::new` errors are mapped to a
500 response with the parse error's message, a failed
`verify_password` to a 401 `Invalid username/email or password`. -/
def loginVerifyStep (pw stored : Str) : HRes Unit :=
  match phcParse stored with
  | none => .err 500 (s2c "password hash string invalid")
  | some (salt, digest) =>
    if argonDigest salt pw = digest then .ok ()
    else .err 401 (s2c "Invalid username/email or password")

/-- The boolean verdict of credential verification ("verified" exactly
when `user_login`'s verification steps succeed). -/
def vaultVerify (pw stored : Str) : Bool :=
  match loginVerifyStep pw stored with
  | .ok _ => true
  | _ => false

/-! ### Data model and database -/

/-- `models.rs` `TransactionKind`. -/
inductive TransactionKind where
  | Income
  | Expense
deriving DecidableEq, Repr

/-- String stored for a kind (`add_transaction`'s match). -/
def kindStr : TransactionKind → Str
  | .Income => s2c "income"
  | .Expense => s2c "expense"

/-- The inverse match used by `get_transactions`; `none` is the
`panic!` arm. -/
def kindOfStr (s : Str) : Option TransactionKind :=
  if s = s2c "income" then some .Income
  else if s = s2c "expense" then some .Expense
  else none

/-- A stored row of the `transactions` table (kind is the raw stored
string, which integrity-violating data may make unrecognizable). -/
structure TransRow where
  user_id : Uuid
  amount : Int
  kind : Str
  category : Option Str
  date : Date
  description : Option Str
deriving DecidableEq, Repr

/-- `models.rs` / `main.rs` `Transaction` (response shape, and the
request body of `main.rs`'s `add_transaction`). -/
structure Transaction where
  user_id : Uuid
  amount : Int
  kind : TransactionKind
  category : Option Str
  date : Date
  description : Option Str
deriving DecidableEq, Repr

/-- `models.rs` `AddTransactionRequest` (no user id: it comes from the
gate). -/
structure AddTransactionRequest where
  amount : Int
  kind : TransactionKind
  category : Option Str
  date : Date
  description : Option Str
deriving DecidableEq, Repr

/-- A stored row of the `budgets` table; also the `Budget`
request/response shape. -/
structure BudgetRow where
  user_id : Uuid
  month : Date
  category : Str
  amount : Int
deriving DecidableEq, Repr

/-- `models.rs` `UpsertBudgetRequest` (no user id). -/
structure UpsertBudgetRequest where
  month : Date
  category : Str
  amount : Int
deriving DecidableEq, Repr

/-- `models.rs` `BudgetProgress`. -/
structure BudgetProgress where
  category : Str
  budget_amount : Int
  spent : Int
  remaining : Int
deriving DecidableEq, Repr

/-- The owner-scoped stores reachable by the handlers. -/
structure Db where
  transactions : List TransRow
  budgets : List BudgetRow
deriving DecidableEq, Repr

/-- SQL `ORDER BY category ASC` on budget rows. -/
def catLe (a b : BudgetRow) : Prop := strLeB a.category b.category = true

instance : DecidableRel catLe := fun a b => instDecidableEqBool _ _

/-- SQL `ORDER BY month DESC, category ASC` on budget rows. -/
def monthDescCatAsc (a b : BudgetRow) : Prop :=
  (dateLtB b.month a.month ||
    (decide (a.month = b.month) && strLeB a.category b.category)) = true

instance : DecidableRel monthDescCatAsc := fun a b => instDecidableEqBool _ _

namespace Handlers

/-- Embeds `add_transaction` (`handlers.rs` lines 103-130): the inserted
row's owner is the gate's verified identity. -/
def addTransaction (auth : Uuid) (req : AddTransactionRequest) (db : Db) :
    HRes Nat × Db :=
  let ts := kindStr req.kind
  (.ok 201,
    { db with transactions :=
        db.transactions ++ [⟨auth, req.amount, ts, req.category, req.date, req.description⟩] })

/-- Embeds the row-mapping loop of `get_transactions` (`handlers.rs`
lines 149-163): each stored kind string is matched back into a
`TransactionKind`, and an unrecognized kind panics. -/
def rowsToTransactions (uid : Uuid) : List TransRow → HRes (List Transaction)
  | [] => .ok []
  | t :: ts =>
    match kindOfStr t.kind with
    | none => .panicked (s2c "Invalid transaction kind in database")
    | some k =>
      match rowsToTransactions uid ts with
      | .ok l => .ok (⟨uid, t.amount, k, t.category, t.date, t.description⟩ :: l)
      | e => e

/-- Embeds `get_transactions` (`handlers.rs` lines 134-166): select the
authenticated user's rows, then map them. -/
def getTransactions (auth : Uuid) (db : Db) : HRes (List Transaction) :=
  rowsToTransactions auth (db.transactions.filter (fun t => decide (t.user_id = auth)))

/-- Embeds the `INSERT ... ON CONFLICT (user_id, month, category) DO
UPDATE SET amount` statement: update the row with the conflicting key
if present, otherwise append a new row. -/
def upsertRows (uid : Uuid) (month : Date) (category : Str) (amount : Int)
    (rows : List BudgetRow) : List BudgetRow :=
  if rows.any (fun r => decide (r.user_id = uid ∧ r.month = month ∧ r.category = category)) then
    rows.map (fun r =>
      if r.user_id = uid ∧ r.month = month ∧ r.category = category then
        { r with amount := amount }
      else r)
  else rows ++ [⟨uid, month, category, amount⟩]

/-- Embeds `upsert_budget` (`handlers.rs` lines 171-193). -/
def upsertBudget (auth : Uuid) (req : UpsertBudgetRequest) (db : Db) :
    HRes Nat × Db :=
  (.ok 201,
    { db with budgets := upsertRows auth req.month req.category req.amount db.budgets })

/-- Embeds `get_budgets` (`handlers.rs` lines 197-249): with a month
filter, the user's rows for that month ordered by category; without,
all the user's rows ordered by month descending then category. -/
def getBudgets (auth : Uuid) (q : Option Date) (db : Db) : HRes (List BudgetRow) :=
  match q with
  | some m =>
    .ok (((db.budgets.filter (fun r => decide (r.user_id = auth ∧ r.month = m))).insertionSort
        catLe).map (fun r => { r with user_id := auth }))
  | none =>
    .ok (((db.budgets.filter (fun r => decide (r.user_id = auth))).insertionSort
        monthDescCatAsc).map (fun r => { r with user_id := auth }))

/-- Embeds the `SUM` side of the aggregation query's `LEFT JOIN`: total
amount of the rows of `ts` matching the join conditions
(`t.user_id = b.user_id AND t.kind = 'expense' AND t.category =
b.category AND t.date >= ws AND t.date < we`), 0 if none
(`COALESCE`). -/
def sumExpenses (ts : List TransRow) (uid : Uuid) (cat : Str) (ws we : Date) : Int :=
  ((ts.filter (fun t =>
      decide (t.user_id = uid) && decide (t.kind = s2c "expense") &&
        decide (t.category = some cat) && dateLeB ws t.date && dateLtB t.date we)).map
    (fun t => t.amount)).foldr (fun a b => a + b) 0

/-- Embeds the aggregation query of `get_budget_progress` (`handlers.rs`
lines 279-315): one output per budget row of the user for the target
month (row-wise by the table's unique key, see the header comment),
ordered by category, with `remaining = budget_amount - spent`. -/
def computeProgress (db : Db) (auth : Uuid) (ms we : Date) : List BudgetProgress :=
  ((db.budgets.filter (fun b => decide (b.user_id = auth ∧ b.month = ms))).insertionSort
      catLe).map
    (fun b =>
      let spent := sumExpenses db.transactions b.user_id b.category ms we
      ⟨b.category, b.amount, spent, b.amount - spent⟩)

/-- Embeds `get_budget_progress` (`handlers.rs` lines 254-318): default
the month to the first of `today`'s month, compute the half-open
window, aggregate. -/
def getBudgetProgress (auth : Uuid) (q : Option Date) (today : Date) (db : Db) :
    HRes (List BudgetProgress) :=
  let ms := match q with
    | some m => m
    | none => ⟨today.year, today.month, 1⟩
  .ok (computeProgress db auth ms (nextMonthStart ms))

end Handlers

namespace MainV

/-- Embeds `main.rs` `add_transaction` (lines 373-408): the body carries
a user id which must equal the verified identity. -/
def addTransaction (auth : Uuid) (tr : Transaction) (db : Db) : HRes Nat × Db :=
  if tr.user_id ≠ auth then
    (.err 401 (s2c "User ID in transaction does not match authenticated user"), db)
  else
    (.ok 201,
      { db with transactions :=
          db.transactions ++
            [⟨tr.user_id, tr.amount, kindStr tr.kind, tr.category, tr.date, tr.description⟩] })

/-- Embeds `main.rs` `get_transactions` (lines 412-453): the path user
id must equal the verified identity. -/
def getTransactions (auth pathUser : Uuid) (db : Db) : HRes (List Transaction) :=
  if pathUser ≠ auth then
    .err 401 (s2c "User ID in path does not match authenticated user")
  else
    Handlers.rowsToTransactions pathUser
      (db.transactions.filter (fun t => decide (t.user_id = pathUser)))

/-- Embeds `main.rs` `upsert_budget` (lines 458-488). -/
def upsertBudget (auth : Uuid) (b : BudgetRow) (db : Db) : HRes Nat × Db :=
  if b.user_id ≠ auth then
    (.err 401 (s2c "User ID in budget does not match authenticated user"), db)
  else
    (.ok 201,
      { db with budgets := Handlers.upsertRows b.user_id b.month b.category b.amount db.budgets })

/-- Embeds `main.rs` `get_budgets` (lines 492-553). -/
def getBudgets (auth pathUser : Uuid) (q : Option Date) (db : Db) :
    HRes (List BudgetRow) :=
  if pathUser ≠ auth then
    .err 401 (s2c "User ID in path does not match authenticated user")
  else
    match q with
    | some m =>
      .ok (((db.budgets.filter
            (fun r => decide (r.user_id = pathUser ∧ r.month = m))).insertionSort
          catLe).map (fun r => { r with user_id := pathUser }))
    | none =>
      .ok (((db.budgets.filter (fun r => decide (r.user_id = pathUser))).insertionSort
          monthDescCatAsc).map (fun r => { r with user_id := pathUser }))

/-- Embeds `main.rs` `get_budget_progress` (lines 558-631). -/
def getBudgetProgress (auth pathUser : Uuid) (q : Option Date) (today : Date) (db : Db) :
    HRes (List BudgetProgress) :=
  if pathUser ≠ auth then
    .err 401 (s2c "User ID in path does not match authenticated user")
  else
    let ms := match q with
      | some m => m
      | none => ⟨today.year, today.month, 1⟩
    .ok (Handlers.computeProgress db pathUser ms (nextMonthStart ms))

end MainV

/-- The aggregation result as the spec's §4.4 words describe it: one
entry per budget row owned by the identity with the target month, the
sum ranging over that identity's expense-kind transactions with the
budget's category and a date inside the window, sorted by category
ascending, `remaining = budget_amount - spent`. -/
def ledgerSpecCompute (db : Db) (ident : Uuid) (ms we : Date) : List BudgetProgress :=
  ((db.budgets.filter (fun b => decide (b.user_id = ident ∧ b.month = ms))).insertionSort
      catLe).map
    (fun b =>
      let spent :=
        ((db.transactions.filter (fun t =>
            decide (t.user_id = ident) && decide (t.kind = s2c "expense") &&
              decide (t.category = some b.category) && dateLeB ms t.date &&
              dateLtB t.date we)).map (fun t => t.amount)).foldr (fun a b => a + b) 0
      ⟨b.category, b.amount, spent, b.amount - spent⟩)

/-- The request body `main.rs`'s `add_transaction` would carry, viewed as
the `handlers.rs` request shape (drop the user id). -/
def reqOfTransaction (tr : Transaction) : AddTransactionRequest :=
  ⟨tr.amount, tr.kind, tr.category, tr.date, tr.description⟩

/-- The request body `main.rs`'s `upsert_budget` would carry, viewed as
the `handlers.rs` request shape (drop the user id). -/
def reqOfBudget (b : BudgetRow) : UpsertBudgetRequest := ⟨b.month, b.category, b.amount⟩

/-! ### Concrete stores used by the scenario theorems and witnesses -/

/-- The identity `U` of the spec's §8 aggregation scenario. -/
def uScen : Uuid := ⟨1⟩

/-- The spec's §8 aggregation scenario store: a 500 groceries budget for
2026-01 and four transactions (two in-window expenses, one
out-of-window expense, one income). -/
def dbScen : Db :=
  { transactions :=
      [⟨uScen, 120, s2c "expense", some (s2c "groceries"), ⟨2026, 1, 5⟩, none⟩,
       ⟨uScen, 80, s2c "expense", some (s2c "groceries"), ⟨2026, 1, 20⟩, none⟩,
       ⟨uScen, 50, s2c "expense", some (s2c "groceries"), ⟨2026, 2, 1⟩, none⟩,
       ⟨uScen, 1000, s2c "income", some (s2c "groceries"), ⟨2026, 1, 10⟩, none⟩],
    budgets := [⟨uScen, ⟨2026, 1, 1⟩, s2c "groceries", 500⟩] }

/-- An overspend store: 150 spent against a 100 budget. -/
def dbOver : Db :=
  { transactions := [⟨uScen, 150, s2c "expense", some (s2c "stuff"), ⟨2026, 1, 10⟩, none⟩],
    budgets := [⟨uScen, ⟨2026, 1, 1⟩, s2c "stuff", 100⟩] }

/-- A December store: one expense on the last day of December 2026 and
one on 2027-01-01 (the exclusive window end). -/
def dbDec : Db :=
  { transactions :=
      [⟨uScen, 40, s2c "expense", some (s2c "misc"), ⟨2026, 12, 31⟩, none⟩,
       ⟨uScen, 7, s2c "expense", some (s2c "misc"), ⟨2027, 1, 1⟩, none⟩],
    budgets := [⟨uScen, ⟨2026, 12, 1⟩, s2c "misc", 100⟩] }

/-- A store holding a row whose kind string is neither `income` nor
`expense` (integrity-violating data). -/
def dbBadKind : Db :=
  { transactions := [⟨uScen, 50, s2c "refund", some (s2c "misc"), ⟨2026, 1, 2⟩, none⟩],
    budgets := [] }

/-- Rows owned by a different identity, for the owner-scoping witness. -/
def extraT1 : List TransRow :=
  [⟨⟨2⟩, 5, s2c "expense", some (s2c "groceries"), ⟨2026, 1, 7⟩, none⟩]

/-- Budget rows owned by a different identity, for the owner-scoping
witness. -/
def extraB1 : List BudgetRow := [⟨⟨2⟩, ⟨2026, 1, 1⟩, s2c "groceries", 400⟩]

/-- A transaction body whose user id matches `uScen`. -/
def trEx : Transaction := ⟨⟨1⟩, 10, .Expense, some (s2c "x"), ⟨2026, 1, 2⟩, none⟩

/-! ### Lemmas about the decimal codec and list utilities -/

theorem toDigitsRevF_congr : ∀ (n f g : Nat), n ≤ f → n ≤ g →
    toDigitsRevF f n = toDigitsRevF g n := by
  intro n
  induction n using Nat.strong_induction_on with
  | _ n ih =>
    intro f g hf hg
    by_cases h10 : n < 10
    · cases f <;> cases g <;>
        simp [toDigitsRevF, h10, Nat.mod_eq_of_lt h10]
    · have hn : 10 ≤ n := by omega
      obtain ⟨f', rfl⟩ : ∃ f', f = f' + 1 := ⟨f - 1, by omega⟩
      obtain ⟨g', rfl⟩ : ∃ g', g = g' + 1 := ⟨g - 1, by omega⟩
      have hlt : n / 10 < n := Nat.div_lt_self (by omega) (by omega)
      simp only [toDigitsRevF, if_neg h10]
      exact congrArg _ (ih (n / 10) hlt f' g' (by omega) (by omega))

theorem toDigitsRev_eq (n : Nat) :
    toDigitsRev n = if n < 10 then [n] else n % 10 :: toDigitsRev (n / 10) := by
  unfold toDigitsRev
  by_cases h10 : n < 10
  · cases n <;> simp [toDigitsRevF, h10, Nat.mod_eq_of_lt h10]
  · obtain ⟨m, rfl⟩ : ∃ m, n = m + 1 := ⟨n - 1, by omega⟩
    simp only [toDigitsRevF, if_neg h10]
    refine congrArg _ (toDigitsRevF_congr ((m + 1) / 10) m ((m + 1) / 10) ?_ (Nat.le_refl _))
    have := Nat.div_lt_self (Nat.succ_pos m) (show 1 < 10 by omega)
    omega

theorem toDigitsRev_ne_nil (n : Nat) : toDigitsRev n ≠ [] := by
  rw [toDigitsRev_eq]
  split <;> simp

theorem toDigitsRev_lt10 (n : Nat) : ∀ d ∈ toDigitsRev n, d < 10 := by
  induction n using Nat.strong_induction_on with
  | _ n ih =>
    rw [toDigitsRev_eq]
    by_cases h10 : n < 10
    · simp [h10]
    · simp only [if_neg h10, List.mem_cons]
      rintro d (rfl | hd)
      · omega
      · exact ih (n / 10) (Nat.div_lt_self (by omega) (by omega)) d hd

theorem valLE_toDigitsRev (n : Nat) : valLE (toDigitsRev n) = n := by
  induction n using Nat.strong_induction_on with
  | _ n ih =>
    rw [toDigitsRev_eq]
    by_cases h10 : n < 10
    · simp [h10, valLE]
    · simp only [if_neg h10, valLE,
        ih (n / 10) (Nat.div_lt_self (by omega) (by omega))]
      omega

theorem digitsVal_append_singleton (l : List Nat) (d : Nat) :
    digitsVal (l ++ [d]) = digitsVal l * 10 + d := by
  simp [digitsVal, List.foldl_append]

theorem digitsVal_reverse (l : List Nat) : digitsVal l.reverse = valLE l := by
  induction l with
  | nil => rfl
  | cons d ds ih =>
    simp only [List.reverse_cons, digitsVal_append_singleton, ih, valLE]
    omega

theorem charDigit_digitChar {d : Nat} (h : d < 10) :
    charDigit (digitChar d) = d := by
  interval_cases d <;> rfl

theorem isDigit_digitChar {d : Nat} (h : d < 10) :
    (digitChar d).isDigit = true := by
  interval_cases d <;> decide

theorem natStr_ne_nil (n : Nat) : natStr n ≠ [] := by
  simp [natStr, toDigitsRev_ne_nil n]

theorem natStr_all_digit (n : Nat) : ∀ c ∈ natStr n, c.isDigit = true := by
  intro c hc
  simp only [natStr, List.mem_map, List.mem_reverse] at hc
  obtain ⟨d, hd, rfl⟩ := hc
  exact isDigit_digitChar (toDigitsRev_lt10 n d hd)

theorem strNat_natStr (n : Nat) : strNat (natStr n) = n := by
  have hmap : (natStr n).map charDigit = (toDigitsRev n).reverse := by
    simp only [natStr, List.map_map]
    rw [List.map_congr_left, List.map_id]
    intro d hd
    exact charDigit_digitChar (toDigitsRev_lt10 n d (List.mem_reverse.mp hd))
  rw [strNat, hmap, digitsVal_reverse, valLE_toDigitsRev]

theorem natStr_injective {m n : Nat} (h : natStr m = natStr n) : m = n := by
  have := congrArg strNat h
  rwa [strNat_natStr, strNat_natStr] at this

theorem stripPre_self_append : ∀ (p r : Str), stripPre p (p ++ r) = some r := by
  intro p r
  induction p with
  | nil => rfl
  | cons a as ih => simp [stripPre, ih]

theorem takeWhile_append_not {α : Type} (p : α → Bool) (l₁ l₂ : List α) (c : α)
    (h₁ : ∀ x ∈ l₁, p x = true) (hc : p c = false) :
    (l₁ ++ c :: l₂).takeWhile p = l₁ := by
  induction l₁ with
  | nil => simp [List.takeWhile_cons, hc]
  | cons a as ih =>
    have ha : p a = true := h₁ a (by simp)
    simp only [List.cons_append, List.takeWhile_cons, ha, if_true]
    rw [ih (fun x hx => h₁ x (by simp [hx]))]

theorem dropWhile_append_not {α : Type} (p : α → Bool) (l₁ l₂ : List α) (c : α)
    (h₁ : ∀ x ∈ l₁, p x = true) (hc : p c = false) :
    (l₁ ++ c :: l₂).dropWhile p = c :: l₂ := by
  induction l₁ with
  | nil => simp [List.dropWhile_cons, hc]
  | cons a as ih =>
    have ha : p a = true := h₁ a (by simp)
    simp only [List.cons_append, List.dropWhile_cons, ha, if_true]
    exact ih (fun x hx => h₁ x (by simp [hx]))

/-! ### Round-trip lemmas for the modelled codecs -/

theorem uuidParse_uuidStr (u : Uuid) : uuidParse (uuidStr u) = some u := by
  unfold uuidParse uuidStr
  rw [stripPre_self_append]
  simp only [List.isEmpty_eq_true, natStr_ne_nil u.val, if_false]
  rw [if_pos (List.all_eq_true.mpr (natStr_all_digit u.val)), strNat_natStr]

theorem jwtDecode_encodeJwt (secret : Str) (c : JwtClaims) (now : Nat) :
    jwtDecode secret (encodeJwt secret c) now =
      if c.exp ≤ now then .error (s2c "ExpiredSignature") else .ok c := by
  unfold jwtDecode encodeJwt
  rw [stripPre_self_append]
  simp only
  rw [takeWhile_append_not Char.isDigit (natStr c.exp) (secret ++ '.' :: c.sub) '.'
      (natStr_all_digit c.exp) (by decide),
    dropWhile_append_not Char.isDigit (natStr c.exp) (secret ++ '.' :: c.sub) '.'
      (natStr_all_digit c.exp) (by decide)]
  simp only [List.isEmpty_eq_true, natStr_ne_nil c.exp, if_false]
  rw [show ('.' :: (secret ++ '.' :: c.sub) : Str) = ('.' :: secret ++ ['.']) ++ c.sub by simp,
    stripPre_self_append, strNat_natStr]

theorem phcParse_argonHash (salt : Nat) (pw : Str) :
    phcParse (argonHash salt pw) = some (salt, pw) := by
  unfold phcParse argonHash argonDigest
  rw [stripPre_self_append]
  simp only
  rw [takeWhile_append_not Char.isDigit (natStr salt) pw '$'
      (natStr_all_digit salt) (by decide),
    dropWhile_append_not Char.isDigit (natStr salt) pw '$'
      (natStr_all_digit salt) (by decide)]
  simp only [List.isEmpty_eq_true, natStr_ne_nil salt, if_false]
  rw [strNat_natStr]

/-! ### Order lemmas for the category comparator -/

theorem strLeB_total : ∀ a b : Str, strLeB a b = true ∨ strLeB b a = true := by
  intro a
  induction a with
  | nil => intro b; left; cases b <;> rfl
  | cons x xs ih =>
    intro b
    cases b with
    | nil => right; rfl
    | cons y ys =>
      by_cases h1 : x.toNat < y.toNat
      · left; simp [strLeB, h1]
      · by_cases h2 : y.toNat < x.toNat
        · right; simp [strLeB, h2]
        · rcases ih ys with h | h
          · left; simp [strLeB, h1, h2, h]
          · right; simp [strLeB, h1, h2, h]

theorem strLeB_trans : ∀ a b c : Str,
    strLeB a b = true → strLeB b c = true → strLeB a c = true := by
  intro a
  induction a with
  | nil => intro b c _ _; cases c <;> rfl
  | cons x xs ih =>
    intro b c hab hbc
    cases b with
    | nil => exact (Bool.false_ne_true hab).elim
    | cons y ys =>
      cases c with
      | nil => exact (Bool.false_ne_true hbc).elim
      | cons z zs =>
        simp only [strLeB] at hab hbc ⊢
        have hxy : x.toNat ≤ y.toNat := by
          by_contra h
          simp [show ¬ x.toNat < y.toNat by omega, show y.toNat < x.toNat by omega] at hab
        have hyz : y.toNat ≤ z.toNat := by
          by_contra h
          simp [show ¬ y.toNat < z.toNat by omega, show z.toNat < y.toNat by omega] at hbc
        by_cases h1 : x.toNat < z.toNat
        · simp [h1]
        · have hxz : x.toNat = z.toNat := by omega
          simp only [show ¬ x.toNat < y.toNat by omega,
            show ¬ y.toNat < x.toNat by omega, if_neg, if_false] at hab
          simp only [show ¬ y.toNat < z.toNat by omega,
            show ¬ z.toNat < y.toNat by omega, if_neg, if_false] at hbc
          simp only [h1, show ¬ z.toNat < x.toNat by omega, if_neg, if_false]
          exact ih ys zs (by simpa using hab) (by simpa using hbc)

/-! ### List helper lemmas -/

theorem filter_append_false {α : Type} (p : α → Bool) (l₁ l₂ : List α)
    (h : ∀ x ∈ l₂, p x = false) : (l₁ ++ l₂).filter p = l₁.filter p := by
  rw [List.filter_append,
    (@List.filter_eq_nil_iff _ p l₂).mpr (fun a ha => by simp [h a ha]),
    List.append_nil]

/-! ### Handler helper lemmas -/

theorem rowsToTransactions_ok_mem (uid : Uuid) :
    ∀ (rows : List TransRow) (l : List Transaction),
      Handlers.rowsToTransactions uid rows = .ok l → ∀ t ∈ l, t.user_id = uid := by
  intro rows
  induction rows with
  | nil =>
    intro l hl t ht
    simp only [Handlers.rowsToTransactions] at hl
    cases hl
    simp at ht
  | cons r rs ih =>
    intro l hl t ht
    simp only [Handlers.rowsToTransactions] at hl
    cases hk : kindOfStr r.kind with
    | none => rw [hk] at hl; cases hl
    | some k =>
      rw [hk] at hl
      cases hrec : Handlers.rowsToTransactions uid rs with
      | ok l' =>
        rw [hrec] at hl
        cases hl
        rcases List.mem_cons.mp ht with rfl | htl
        · rfl
        · exact ih l' hrec t htl
      | err s m => rw [hrec] at hl; cases hl
      | panicked m => rw [hrec] at hl; cases hl

theorem computeProgress_eq_spec (db : Db) (auth : Uuid) (ms we : Date) :
    Handlers.computeProgress db auth ms we = ledgerSpecCompute db auth ms we := by
  unfold Handlers.computeProgress ledgerSpecCompute Handlers.sumExpenses
  apply List.map_congr_left
  intro b hb
  have hbm : b ∈ db.budgets.filter (fun b => decide (b.user_id = auth ∧ b.month = ms)) :=
    ((List.perm_insertionSort catLe _).mem_iff).mp hb
  have hba : b.user_id = auth := (of_decide_eq_true (List.mem_filter.mp hbm).2).1
  rw [hba]

/-! ### Claim theorems -/

/-- C6: for every target month start, the aggregation window used by
`get_budget_progress` is the half-open range from the month start to
`nextMonthStart`, where `nextMonthStart` is the first day of the
following calendar month — December rolls over to January 1 of the next
year (2026-12-01 gives 2027-01-01, never a thirteenth month).  The
concrete December store shows the window end is exclusive: the expense
dated 2027-01-01 is not counted, the one dated 2026-12-31 is. -/
theorem c6_month_window :
    (∀ ms : Date, 1 ≤ ms.month → ms.month ≤ 12 →
      (ms.month = 12 → nextMonthStart ms = ⟨ms.year + 1, 1, 1⟩) ∧
      (ms.month < 12 → nextMonthStart ms = ⟨ms.year, ms.month + 1, 1⟩) ∧
      (nextMonthStart ms).day = 1 ∧
      (∀ auth today db, Handlers.getBudgetProgress auth (some ms) today db =
        .ok (Handlers.computeProgress db auth ms (nextMonthStart ms)))) ∧
    nextMonthStart ⟨2026, 12, 1⟩ = ⟨2027, 1, 1⟩ ∧
    Handlers.getBudgetProgress uScen (some ⟨2026, 12, 1⟩) ⟨2027, 2, 2⟩ dbDec =
      .ok [⟨s2c "misc", 100, 40, 60⟩] := by
  refine ⟨?_, by decide, by rfl⟩
  intro ms _h1 _h2
  refine ⟨?_, ?_, ?_, ?_⟩
  · intro h12
    simp [nextMonthStart, h12]
  · intro hlt
    rw [nextMonthStart, if_neg (by omega)]
  · rw [nextMonthStart]
    split <;> rfl
  · intro auth today db
    rfl

/-- C6 witness: the theorem applied at the concrete month 2026-05-01. -/
theorem c6_month_window_witness : nextMonthStart ⟨2026, 5, 1⟩ = ⟨2026, 6, 1⟩ :=
  (c6_month_window.1 ⟨2026, 5, 1⟩ (by decide) (by decide)).2.1 (by decide)

/-- C3: verifying a token issued for identity `I` at time `now` with the
same secret yields `I` with expiry `now + 86400` whenever verification
happens strictly before `now + 86400`, and yields the expiry error at
or after `now + 86400`. -/
theorem c3_token_roundtrip :
    ∀ (I : Uuid) (now t : Nat) (secret : Str),
      (t < now + 86400 →
        verifyJwt (issueToken secret I now) secret t = .ok (I, now + 86400)) ∧
      (now + 86400 ≤ t →
        verifyJwt (issueToken secret I now) secret t = .error (s2c "ExpiredSignature")) := by
  intro I now t secret
  have hexp : now + JWT_EXPIRATION_HOURS * 3600 = now + 86400 := by
    rw [JWT_EXPIRATION_HOURS]
  rw [issueToken, verifyJwt, jwtDecode_encodeJwt]
  simp only [hexp]
  constructor
  · intro ht
    rw [if_neg (show ¬ (now + 86400 ≤ t) by omega)]
    simp only [uuidParse_uuidStr]
  · intro ht
    rw [if_pos (show now + 86400 ≤ t by omega)]

/-- C3 witness: the round trip at identity 7, issuance time 0, secret
`k`, verified at times 0 (valid) and 86400 (expired). -/
theorem c3_token_roundtrip_witness :
    verifyJwt (issueToken (s2c "k") ⟨7⟩ 0) (s2c "k") 0 = .ok (⟨7⟩, 86400) ∧
    verifyJwt (issueToken (s2c "k") ⟨7⟩ 0) (s2c "k") 86400 = .error (s2c "ExpiredSignature") :=
  ⟨(c3_token_roundtrip ⟨7⟩ 0 0 (s2c "k")).1 (by decide),
   (c3_token_roundtrip ⟨7⟩ 0 86400 (s2c "k")).2 (by decide)⟩

/-- C7: on a stored transaction whose kind string is neither `income`
nor `expense`, `get_transactions` does not return an error response —
it panics (the `panic!` arm of the kind match), aborting instead of
surfacing a `DataIntegrityFailure`-style server error.  This is the
behavior the spec flags as a latent bug (§9). -/
theorem c7_bad_kind_panics :
    Handlers.getTransactions uScen dbBadKind =
      .panicked (s2c "Invalid transaction kind in database") ∧
    MainV.getTransactions uScen uScen dbBadKind =
      .panicked (s2c "Invalid transaction kind in database") := by
  exact ⟨by decide, by decide⟩

/-- C10: a present Authorization header whose bytes are not readable as
a visible-ASCII string is rejected exactly like an absent header, with
the `Missing Authorization header` message (the `to_str().ok()` chain
collapses both cases into `None`). -/
theorem c10_unreadable_header :
    ∀ (bs : List Nat) (secret : Str) (now : Nat),
      (∃ b ∈ bs, validHeaderByte b = false) →
      authenticate (some bs) secret now = .err 401 (s2c "Missing Authorization header") ∧
      authenticate (some bs) secret now = authenticate none secret now := by
  intro bs secret now h
  have hall : bs.all validHeaderByte = false := by
    rw [List.all_eq_false]
    obtain ⟨b, hb, hv⟩ := h
    exact ⟨b, hb, by simp [hv]⟩
  constructor <;> simp [authenticate, headerStr, hall, Option.bind]

/-- C10 witness: the theorem applied to the single-byte header `[200]`
(byte 200 is not visible ASCII). -/
theorem c10_unreadable_header_witness :
    authenticate (some [200]) [] 0 = .err 401 (s2c "Missing Authorization header") :=
  (c10_unreadable_header [200] [] 0 ⟨200, by decide, by decide⟩).1

/-- C2 counterexample: a present, readable header that is not of the
form `Bearer <token>` is rejected with the message `Invalid
Authorization format, expected: Bearer <token>`, which is not the
message `Invalid Authorization format` stated by the claim. -/
theorem c2_gate_counterexample :
    authenticate (some ((s2c "Token abc").map Char.toNat)) (s2c "k") 0 =
      .err 401 (s2c "Invalid Authorization format, expected: Bearer <token>") ∧
    s2c "Invalid Authorization format, expected: Bearer <token>" ≠
      s2c "Invalid Authorization format" := by
  exact ⟨by decide, by decide⟩

/-- C2 (amended): the gate rejects an absent header with `Missing
Authorization header`; a present readable header without the
`Bearer ` prefix with `Invalid Authorization format, expected: Bearer
<token>`; a token failing verification for any reason with the single
message `Invalid or expired token` (the same message whatever the
error); and yields the verified identity otherwise. -/
theorem c2_gate_amended :
    ∀ (secret : Str) (now : Nat),
      authenticate none secret now = .err 401 (s2c "Missing Authorization header") ∧
      ∀ (bs : List Nat) (h : Str), headerStr bs = some h →
        ((stripPre (s2c "Bearer ") h = none →
            authenticate (some bs) secret now =
              .err 401 (s2c "Invalid Authorization format, expected: Bearer <token>")) ∧
         ∀ tok, stripPre (s2c "Bearer ") h = some tok →
           ((∀ e, verifyJwt tok secret now = .error e →
               authenticate (some bs) secret now =
                 .err 401 (s2c "Invalid or expired token")) ∧
            (∀ u exp, verifyJwt tok secret now = .ok (u, exp) →
               authenticate (some bs) secret now = .ok u))) := by
  intro secret now
  refine ⟨rfl, ?_⟩
  intro bs h hh
  constructor
  · intro hnone
    rw [authenticate]
    simp only [Option.bind, hh, hnone]
  · intro tok htok
    constructor
    · intro e he
      rw [authenticate]
      simp only [Option.bind, hh, htok, he]
    · intro u exp hok
      rw [authenticate]
      simp only [Option.bind, hh, htok, hok]

/-- C2 witness: the amended theorem applied to the concrete header
`Bearer x` with secret `k` at time 0 (the token `x` fails
verification). -/
theorem c2_gate_amended_witness :
    authenticate (some ((s2c "Bearer x").map Char.toNat)) (s2c "k") 0 =
      .err 401 (s2c "Invalid or expired token") :=
  (((c2_gate_amended (s2c "k") 0).2 ((s2c "Bearer x").map Char.toNat) (s2c "Bearer x")
      (by decide)).2 (s2c "x") (by decide)).1 (s2c "InvalidToken") (by rfl)

/-- C8 counterexample: a stored hash that fails to parse makes the
login verification step answer with a 500 server error carrying the
parse failure — a distinct outcome from the 401 `Invalid
username/email or password` given for a mismatch — so a parse error is
not collapsed into the "not verified" outcome. -/
theorem c8_fail_closed_counterexample :
    loginVerifyStep (s2c "pw") (s2c "nothash") =
      .err 500 (s2c "password hash string invalid") ∧
    loginVerifyStep (s2c "pw") (s2c "nothash") ≠
      .err 401 (s2c "Invalid username/email or password") ∧
    loginVerifyStep (s2c "pw2") (argonHash 3 (s2c "pw")) =
      .err 401 (s2c "Invalid username/email or password") := by
  exact ⟨by decide, by decide, by decide⟩

/-- C8 (amended): for every password and stored hash, verification has
exactly three outcomes: success when the recomputed digest matches; the
401 "not verified" response on a digest mismatch; and — unlike the
claim's fail-closed collapse — a distinct 500 server error with the
parse failure's message whenever the stored hash does not parse. -/
theorem c8_fail_closed_amended :
    ∀ (pw stored : Str),
      (phcParse stored = none →
        loginVerifyStep pw stored = .err 500 (s2c "password hash string invalid")) ∧
      (∀ salt digest, phcParse stored = some (salt, digest) →
        ((loginVerifyStep pw stored = .ok ()) ↔ argonDigest salt pw = digest) ∧
        (argonDigest salt pw ≠ digest →
          loginVerifyStep pw stored =
            .err 401 (s2c "Invalid username/email or password"))) := by
  intro pw stored
  constructor
  · intro hnone
    simp only [loginVerifyStep, hnone]
  · intro salt digest hsome
    simp only [loginVerifyStep, hsome]
    constructor
    · constructor
      · intro hok
        by_contra hne
        rw [if_neg hne] at hok
        exact HRes.noConfusion hok
      · intro heq
        rw [if_pos heq]
    · intro hne
      rw [if_neg hne]

/-- C8 witness: the amended theorem applied to a non-parsing stored
hash and to a mismatching password against a well-formed hash. -/
theorem c8_fail_closed_amended_witness :
    loginVerifyStep (s2c "a") (s2c "nothash") =
      .err 500 (s2c "password hash string invalid") ∧
    loginVerifyStep (s2c "b") (argonHash 2 (s2c "a")) =
      .err 401 (s2c "Invalid username/email or password") :=
  ⟨(c8_fail_closed_amended (s2c "a") (s2c "nothash")).1 (by decide),
   ((c8_fail_closed_amended (s2c "b") (argonHash 2 (s2c "a"))).2 2 (s2c "a")
      (by decide)).2 (by decide)⟩

/-- C9: a password verifies against its own hash; a different password
fails against that hash (the modelled digest is ideal, so "overwhelming
probability" strengthens to certainty); and hashing the same password
with two distinct fresh salts yields two different encoded strings that
both verify the password. -/
theorem c9_hash_verify_roundtrip :
    ∀ (p p1 p2 : Str) (salt s1 s2 : Nat),
      vaultVerify p (argonHash salt p) = true ∧
      (p1 ≠ p2 → vaultVerify p1 (argonHash salt p2) = false) ∧
      (s1 ≠ s2 →
        argonHash s1 p ≠ argonHash s2 p ∧
        vaultVerify p (argonHash s1 p) = true ∧
        vaultVerify p (argonHash s2 p) = true) := by
  have hver : ∀ (p : Str) (s : Nat), vaultVerify p (argonHash s p) = true := by
    intro p s
    simp [vaultVerify, loginVerifyStep, phcParse_argonHash, argonDigest]
  intro p p1 p2 salt s1 s2
  refine ⟨hver p salt, ?_, ?_⟩
  · intro hne
    simp [vaultVerify, loginVerifyStep, phcParse_argonHash, argonDigest, hne]
  · intro hs
    refine ⟨?_, hver p s1, hver p s2⟩
    intro he
    have := congrArg phcParse he
    rw [phcParse_argonHash, phcParse_argonHash] at this
    exact hs (congrArg Prod.fst (Option.some.inj this))

/-- C9 witness: the theorem applied to passwords `a`, `b` and salts 1,
2. -/
theorem c9_hash_verify_roundtrip_witness :
    vaultVerify (s2c "a") (argonHash 1 (s2c "a")) = true ∧
    vaultVerify (s2c "a") (argonHash 1 (s2c "b")) = false ∧
    argonHash 1 (s2c "a") ≠ argonHash 2 (s2c "a") :=
  ⟨(c9_hash_verify_roundtrip (s2c "a") (s2c "a") (s2c "b") 1 1 2).1,
   (c9_hash_verify_roundtrip (s2c "a") (s2c "a") (s2c "b") 1 1 2).2.1 (by decide),
   ((c9_hash_verify_roundtrip (s2c "a") (s2c "a") (s2c "b") 1 1 2).2.2 (by decide)).1⟩

/-- Expense sums ignore appended rows owned by a different user. -/
theorem sumExpenses_append_false (ts extra : List TransRow) (uid : Uuid) (cat : Str)
    (ws we : Date) (h : ∀ t ∈ extra, t.user_id ≠ uid) :
    Handlers.sumExpenses (ts ++ extra) uid cat ws we =
      Handlers.sumExpenses ts uid cat ws we := by
  unfold Handlers.sumExpenses
  rw [filter_append_false]
  intro t htm
  simp [h t htm]

/-- The aggregation ignores appended transaction and budget rows owned
by a different user. -/
theorem computeProgress_extra (db : Db) (auth : Uuid) (extraT : List TransRow)
    (extraB : List BudgetRow) (ms we : Date)
    (ht : ∀ t ∈ extraT, t.user_id ≠ auth) (hbx : ∀ b ∈ extraB, b.user_id ≠ auth) :
    Handlers.computeProgress ⟨db.transactions ++ extraT, db.budgets ++ extraB⟩ auth ms we =
      Handlers.computeProgress db auth ms we := by
  simp only [Handlers.computeProgress]
  rw [filter_append_false _ db.budgets extraB (fun b hbm => by simp [hbx b hbm])]
  apply List.map_congr_left
  intro b hbm
  have hbu : b.user_id = auth :=
    (of_decide_eq_true (List.mem_filter.mp
      (((List.perm_insertionSort catLe _).mem_iff).mp hbm)).2).1
  have hs : Handlers.sumExpenses (db.transactions ++ extraT) b.user_id b.category ms we =
      Handlers.sumExpenses db.transactions b.user_id b.category ms we := by
    rw [hbu]
    exact sumExpenses_append_false _ _ _ _ _ _ ht
  simp only [hs]

/-- C5: the aggregation emits exactly one entry per budget row owned by
the identity for the target month, sorted by category ascending, with
`spent` the sum of that identity's in-window expense transactions of
the budget's category and `remaining = budget_amount - spent` (possibly
negative): the handler's result coincides with `ledgerSpecCompute`,
the definition transcribed from the spec's words, on every store; the
§8 scenario yields `[groceries, 500, 200, 300]`; and an overspend store
yields a negative remaining. -/
theorem c5_ledger_compute :
    (∀ (db : Db) (auth : Uuid) (ms today : Date),
      Handlers.getBudgetProgress auth (some ms) today db =
        .ok (ledgerSpecCompute db auth ms (nextMonthStart ms))) ∧
    (∀ (db : Db) (auth : Uuid) (ms we : Date),
      List.Sorted (fun p q : BudgetProgress => strLeB p.category q.category = true)
        (Handlers.computeProgress db auth ms we)) ∧
    Handlers.getBudgetProgress uScen (some ⟨2026, 1, 1⟩) ⟨2026, 3, 3⟩ dbScen =
      .ok [⟨s2c "groceries", 500, 200, 300⟩] ∧
    Handlers.computeProgress dbOver uScen ⟨2026, 1, 1⟩ ⟨2026, 2, 1⟩ =
      [⟨s2c "stuff", 100, 150, -50⟩] := by
  refine ⟨?_, ?_, by rfl, by rfl⟩
  · intro db auth ms today
    exact congrArg HRes.ok (computeProgress_eq_spec db auth ms (nextMonthStart ms))
  · intro db auth ms we
    have hs : List.Sorted catLe
        ((db.budgets.filter (fun b => decide (b.user_id = auth ∧ b.month = ms))).insertionSort
          catLe) :=
      @List.sorted_insertionSort BudgetRow catLe inferInstance
        ⟨fun a b => strLeB_total a.category b.category⟩
        ⟨fun a b c hab hbc => strLeB_trans a.category b.category c.category hab hbc⟩ _
    simp only [Handlers.computeProgress]
    exact List.pairwise_map.mpr (hs.imp (fun h => h))

/-- C1: owner scoping of every protected operation of `handlers.rs` —
rows written by `add_transaction` and `upsert_budget` carry the
verified identity as owner (any other row of the store is untouched);
rows returned by `get_transactions` and `get_budgets` all carry the
verified identity; and the results of the three reads are unchanged by
adding any rows owned by a different identity, so no response ever
contains or combines another identity's rows. -/
theorem c1_owner_scoping :
    ∀ (auth : Uuid) (db : Db),
      (∀ req r, r ∈ ((Handlers.addTransaction auth req db).2).transactions →
        r ∈ db.transactions ∨ r.user_id = auth) ∧
      (∀ req, ((Handlers.addTransaction auth req db).2).budgets = db.budgets) ∧
      (∀ req r, r ∈ ((Handlers.upsertBudget auth req db).2).budgets →
        r ∈ db.budgets ∨ r.user_id = auth) ∧
      (∀ req, ((Handlers.upsertBudget auth req db).2).transactions = db.transactions) ∧
      (∀ l, Handlers.getTransactions auth db = .ok l → ∀ t ∈ l, t.user_id = auth) ∧
      (∀ q l, Handlers.getBudgets auth q db = .ok l → ∀ b ∈ l, b.user_id = auth) ∧
      (∀ extraT extraB,
        (∀ t ∈ extraT, t.user_id ≠ auth) → (∀ b ∈ extraB, b.user_id ≠ auth) →
        (Handlers.getTransactions auth ⟨db.transactions ++ extraT, db.budgets ++ extraB⟩ =
            Handlers.getTransactions auth db ∧
         (∀ q, Handlers.getBudgets auth q ⟨db.transactions ++ extraT, db.budgets ++ extraB⟩ =
            Handlers.getBudgets auth q db) ∧
         (∀ q today, Handlers.getBudgetProgress auth q today
              ⟨db.transactions ++ extraT, db.budgets ++ extraB⟩ =
            Handlers.getBudgetProgress auth q today db))) := by
  intro auth db
  refine ⟨?_, ?_, ?_, ?_, ?_, ?_, ?_⟩
  · intro req r hr
    simp only [Handlers.addTransaction, List.mem_append] at hr
    rcases hr with h | h
    · exact Or.inl h
    · right
      rw [List.mem_singleton] at h
      subst h
      rfl
  · intro _req; rfl
  · intro req r hr
    simp only [Handlers.upsertBudget, Handlers.upsertRows] at hr
    split at hr
    · rw [List.mem_map] at hr
      obtain ⟨r0, hr0, rfl⟩ := hr
      by_cases hk : r0.user_id = auth ∧ r0.month = req.month ∧ r0.category = req.category
      · right
        rw [if_pos hk]
        exact hk.1
      · left
        rw [if_neg hk]
        exact hr0
    · rcases List.mem_append.mp hr with h | h
      · exact Or.inl h
      · right
        rw [List.mem_singleton] at h
        subst h
        rfl
  · intro _req; rfl
  · intro l hl t htl
    exact rowsToTransactions_ok_mem auth _ l hl t htl
  · intro q l hl b hbl
    cases q with
    | some m =>
      simp only [Handlers.getBudgets] at hl
      injection hl with h
      subst h
      rw [List.mem_map] at hbl
      obtain ⟨r, _, rfl⟩ := hbl
      rfl
    | none =>
      simp only [Handlers.getBudgets] at hl
      injection hl with h
      subst h
      rw [List.mem_map] at hbl
      obtain ⟨r, _, rfl⟩ := hbl
      rfl
  · intro extraT extraB ht hbx
    have hfilT : (db.transactions ++ extraT).filter (fun t => decide (t.user_id = auth)) =
        db.transactions.filter (fun t => decide (t.user_id = auth)) :=
      filter_append_false _ _ _ (fun t htm => by simp [ht t htm])
    refine ⟨?_, ?_, ?_⟩
    · exact congrArg (Handlers.rowsToTransactions auth) hfilT
    · intro q
      cases q with
      | some m =>
        exact congrArg
          (fun L => HRes.ok ((L.insertionSort catLe).map (fun r => { r with user_id := auth })))
          (filter_append_false (fun r => decide (r.user_id = auth ∧ r.month = m)) db.budgets
            extraB (fun r hrm => by simp [hbx r hrm]))
      | none =>
        exact congrArg
          (fun L => HRes.ok
            ((L.insertionSort monthDescCatAsc).map (fun r => { r with user_id := auth })))
          (filter_append_false (fun r => decide (r.user_id = auth)) db.budgets
            extraB (fun r hrm => by simp [hbx r hrm]))
    · intro q today
      cases q with
      | some m => exact congrArg HRes.ok (computeProgress_extra db auth extraT extraB m _ ht hbx)
      | none =>
        exact congrArg HRes.ok
          (computeProgress_extra db auth extraT extraB ⟨today.year, today.month, 1⟩ _ ht hbx)

/-- C1 witness: the non-interference part applied to the §8 store
extended with rows owned by identity 2, authenticated as identity 1. -/
theorem c1_owner_scoping_witness :
    Handlers.getTransactions uScen ⟨dbScen.transactions ++ extraT1, dbScen.budgets ++ extraB1⟩ =
      Handlers.getTransactions uScen dbScen ∧
    Handlers.getBudgetProgress uScen (some ⟨2026, 1, 1⟩) ⟨2026, 3, 3⟩
        ⟨dbScen.transactions ++ extraT1, dbScen.budgets ++ extraB1⟩ =
      Handlers.getBudgetProgress uScen (some ⟨2026, 1, 1⟩) ⟨2026, 3, 3⟩ dbScen := by
  have h := ((c1_owner_scoping uScen dbScen).2.2.2.2.2.2 extraT1 extraB1
    (by decide) (by decide))
  exact ⟨h.1, h.2.2 (some ⟨2026, 1, 1⟩) ⟨2026, 3, 3⟩⟩

/-- C4: every `main.rs` protected route carrying a target user id (in
the path for the reads, in the body for the writes) rejects with a 401
and its mismatch message — leaving the store untouched — whenever the
target differs from the verified identity, and otherwise behaves
exactly like the corresponding token-only `handlers.rs` operation for
the verified identity (no identity substitution in either direction). -/
theorem c4_identity_mismatch :
    ∀ (auth : Uuid) (db : Db),
      (∀ tr, tr.user_id ≠ auth →
        MainV.addTransaction auth tr db =
          (.err 401 (s2c "User ID in transaction does not match authenticated user"), db)) ∧
      (∀ tr, tr.user_id = auth →
        MainV.addTransaction auth tr db =
          Handlers.addTransaction auth (reqOfTransaction tr) db) ∧
      (∀ u, u ≠ auth → MainV.getTransactions auth u db =
        .err 401 (s2c "User ID in path does not match authenticated user")) ∧
      (MainV.getTransactions auth auth db = Handlers.getTransactions auth db) ∧
      (∀ b, b.user_id ≠ auth →
        MainV.upsertBudget auth b db =
          (.err 401 (s2c "User ID in budget does not match authenticated user"), db)) ∧
      (∀ b, b.user_id = auth →
        MainV.upsertBudget auth b db = Handlers.upsertBudget auth (reqOfBudget b) db) ∧
      (∀ u q, u ≠ auth → MainV.getBudgets auth u q db =
        .err 401 (s2c "User ID in path does not match authenticated user")) ∧
      (∀ q, MainV.getBudgets auth auth q db = Handlers.getBudgets auth q db) ∧
      (∀ u q today, u ≠ auth → MainV.getBudgetProgress auth u q today db =
        .err 401 (s2c "User ID in path does not match authenticated user")) ∧
      (∀ q today, MainV.getBudgetProgress auth auth q today db =
        Handlers.getBudgetProgress auth q today db) := by
  intro auth db
  refine ⟨?_, ?_, ?_, ?_, ?_, ?_, ?_, ?_, ?_, ?_⟩
  · intro tr hne
    simp [MainV.addTransaction, hne]
  · intro tr heq
    simp [MainV.addTransaction, Handlers.addTransaction, reqOfTransaction, heq]
  · intro u hne
    simp [MainV.getTransactions, hne]
  · simp [MainV.getTransactions, Handlers.getTransactions]
  · intro b hne
    simp [MainV.upsertBudget, hne]
  · intro b heq
    simp [MainV.upsertBudget, Handlers.upsertBudget, reqOfBudget, heq]
  · intro u q hne
    simp [MainV.getBudgets, hne]
  · intro q
    cases q <;> simp [MainV.getBudgets, Handlers.getBudgets]
  · intro u q today hne
    simp [MainV.getBudgetProgress, hne]
  · intro q today
    cases q <;> simp [MainV.getBudgetProgress, Handlers.getBudgetProgress]

/-- C4 witness: a mismatching path id is rejected and a matching body id
proceeds like the token-only handler, on the §8 store. -/
theorem c4_identity_mismatch_witness :
    MainV.getTransactions uScen ⟨2⟩ dbScen =
      .err 401 (s2c "User ID in path does not match authenticated user") ∧
    MainV.addTransaction uScen trEx dbScen =
      Handlers.addTransaction uScen (reqOfTransaction trEx) dbScen :=
  ⟨(c4_identity_mismatch uScen dbScen).2.2.1 ⟨2⟩ (by decide),
   (c4_identity_mismatch uScen dbScen).2.1 trEx (by decide)⟩
